import Mathlib

/-
Verification development for the pinv storage/validation engine.

The definitions below are a shallow embedding of the Rust sources:
  * src/b64.rs   - the key codec (fromU64 / toU64)
  * src/db.rs    - the validators, the key registry and the store engine

Conventions of the embedding:
  * Rust u64 values are modelled as Nat; no claim below exercises u64
    overflow (the spec leaves overflow behaviour unspecified).
  * A Rust panic (out of bounds indexing) is modelled as Option.none.
  * Fallible Rust functions returning Result are modelled as Except Err.
  * While loops are modelled with an explicit fuel argument that is large
    enough to be unreachable (so that the definitions stay structurally
    recursive and evaluate inside the kernel); each such bound is justified
    in a comment at the definition.
  * The SQLite backing engine is not part of the repository; the effect of
    the SQL statements the engine executes (INSERT / UPDATE / DELETE /
    SELECT with a primary key column) is modelled on an explicit DbState
    value, with primary key violations raising Err.sqlConstraint and
    malformed statements raising Err.sqlSyntax.
-/

/-- Error taxonomy of the engine, following section 7 of the spec; the Rust
source uses `simple_error` strings, each constructor below corresponds to one
bail site or one backing engine failure mode. -/
inductive Err where
  | invalidDigit
  | invalidId
  | invalidText
  | invalidInteger
  | invalidReal
  | unsupportedType
  | invalidCondition
  | fieldNotFound
  | keyNotFound
  | queryNoRows
  | noSuchTable
  | noSuchColumn
  | sqlConstraint
  | sqlSyntax
  deriving DecidableEq, Repr

/-- Decidable equality for Except results, used to evaluate the models on
concrete inputs. -/
instance {ε α : Type} [DecidableEq ε] [DecidableEq α] : DecidableEq (Except ε α) :=
  fun x y =>
    match x, y with
    | .ok a, .ok b =>
      if h : a = b then isTrue (by rw [h])
      else isFalse (by intro hc; cases hc; exact h rfl)
    | .error a, .error b =>
      if h : a = b then isTrue (by rw [h])
      else isFalse (by intro hc; cases hc; exact h rfl)
    | .ok _, .error _ => isFalse (by intro hc; cases hc)
    | .error _, .ok _ => isFalse (by intro hc; cases hc)

/-- Datatypes in pinv (src/db.rs, enum DataType). -/
inductive DataType where
  | NULL
  | INTEGER
  | REAL
  | TEXT
  | BLOB
  deriving DecidableEq, Repr

/-- Table containing all the numerals of pinv-style base64; position in the
table determines the value (src/b64.rs, static TABLE). -/
def TABLE : List Char :=
  ['0', '1', '2', '3', '4', '5', '6', '7', '8', '9', 'A', 'B', 'C', 'D', 'E',
   'F', 'G', 'H', 'I', 'J', 'K', 'L', 'M', 'N', 'O', 'P', 'Q', 'R', 'S', 'T',
   'U', 'V', 'W', 'X', 'Y', 'Z', 'a', 'b', 'c', 'd', 'e', 'f', 'g', 'h', 'i',
   'j', 'k', 'l', 'm', 'n', 'o', 'p', 'q', 'r', 's', 't', 'u', 'v', 'w', 'x',
   'y', 'z', '+', '-']

/-- Loop of b64::from_u64: while num > 0 it pushes TABLE[num % i], then sets
num := num / i and i := i * 64 (note that the divisor i itself grows, exactly
as in the source).  Indexing TABLE out of range is a Rust panic, modelled as
none.  The fuel equals the initial num: every iteration with num > 0 divides
num by i >= 64, so num strictly decreases and the fuel is never exhausted. -/
def fromU64Go : Nat → Nat → Nat → Option (List Char)
  | _, 0, _ => some []
  | 0, _ + 1, _ => none
  | fuel + 1, n + 1, i =>
    match TABLE[(n + 1) % i]? with
    | none => none
    | some c =>
      match fromU64Go fuel ((n + 1) / i) (i * 64) with
      | none => none
      | some rest => some (c :: rest)

/-- Model of b64::from_u64.  Zero is special cased to "0" as in the source;
otherwise the digit list is built least significant first and reversed.  A
result of none models the panic on an out of range TABLE index. -/
def fromU64 (num : Nat) : Option String :=
  if num = 0 then some "0"
  else (fromU64Go num num 64).map (fun l => String.mk l.reverse)

/-- Model of TABLE.iter().position(|x| x == &digit) (src/b64.rs line 66). -/
def tablePosGo : List Char → Char → Nat → Option Nat
  | [], _, _ => none
  | t :: rest, c, i => if t == c then some i else tablePosGo rest c (i + 1)

/-- Position of a character in TABLE, its digit value. -/
def tablePos (c : Char) : Option Nat :=
  tablePosGo TABLE c 0

/-- Unicode characters with the White_Space property, the set trimmed by
Rust str::trim via char::is_whitespace. -/
def rustWhitespace : List Char :=
  ['\t', '\n', Char.ofNat 0x0B, Char.ofNat 0x0C, '\r', ' ',
   Char.ofNat 0x85, Char.ofNat 0xA0, Char.ofNat 0x1680,
   Char.ofNat 0x2000, Char.ofNat 0x2001, Char.ofNat 0x2002,
   Char.ofNat 0x2003, Char.ofNat 0x2004, Char.ofNat 0x2005,
   Char.ofNat 0x2006, Char.ofNat 0x2007, Char.ofNat 0x2008,
   Char.ofNat 0x2009, Char.ofNat 0x200A, Char.ofNat 0x2028,
   Char.ofNat 0x2029, Char.ofNat 0x202F, Char.ofNat 0x205F,
   Char.ofNat 0x3000]

/-- Whether a character is whitespace in the sense of Rust char::is_whitespace. -/
def rustIsWs (c : Char) : Bool :=
  rustWhitespace.contains c

/-- Model of Rust str::trim: remove whitespace from both ends. -/
def rustTrim (l : List Char) : List Char :=
  ((l.dropWhile rustIsWs).reverse.dropWhile rustIsWs).reverse

/-- Loop of b64::to_u64: iterate over the reversed trimmed characters with a
place value accumulator pow starting at 1 and multiplied by 64 each step; an
unknown character bails with the invalid digit error. -/
def toU64Go : List Char → Nat → Nat → Except Err Nat
  | [], _, acc => .ok acc
  | c :: rest, pow, acc =>
    match tablePos c with
    | none => .error .invalidDigit
    | some dv => toU64Go rest (pow * 64) (acc + dv * pow)

/-- Model of b64::to_u64: trim the input, then fold the reversed digit list;
an input with no digits returns the initial accumulator 0. -/
def toU64 (s : String) : Except Err Nat :=
  toU64Go (rustTrim s.toList).reverse 1 0

/-- Characters excluded by the identifier regex character class
[^a-z+\\\-*/%&|\^=><;] in Db::check_id_string (src/db.rs line 899). -/
def idExcluded : List Char :=
  ['+', '\\', '-', '*', '/', '%', '&', '|', '^', '=', '>', '<', ';']

/-- Transcription of the anchored identifier regex
\A[A-Z][\S and not [a-z+\\\-*/%&|\^=><;]]*\z of Db::check_id_string: one
uppercase ascii letter, then characters that are non whitespace and outside
the excluded class. -/
def idRegexAccepts : List Char → Bool
  | [] => false
  | c :: rest =>
    c.isUpper && rest.all (fun d => !rustIsWs d && !(d.isLower || idExcluded.contains d))

/-- Formulation of the identifier rule following the words of the spec: the
string starts with an uppercase ascii letter and its remaining characters
contain no lowercase letters, none of the excluded characters, and no
whitespace. -/
def specIdValid : List Char → Bool
  | [] => false
  | c :: rest =>
    c.isUpper && rest.all (fun d => !d.isLower && !idExcluded.contains d && !rustIsWs d)

/-- Model of Db::check_id_string: match against the identifier regex and bail
with the invalid identifier error otherwise. -/
def checkIdString (id : String) : Except Err Unit :=
  if idRegexAccepts id.toList then .ok () else .error .invalidId

/-- The single quote character, written by code point to keep character
literals simple. -/
def quoteChar : Char := Char.ofNat 39

/-- The backslash character. -/
def backslashChar : Char := '\\'

/-- Model of replacing every match of the regex for backslash followed by a
single quote with the empty string (VALID_TEXT_PREP_RE, src/db.rs line 913):
scan left to right, removing each escaped quote pair. -/
def stripEscapedQuotes : List Char → List Char
  | [] => []
  | [c] => [c]
  | c :: d :: rest2 =>
    if c == backslashChar && d == quoteChar then stripEscapedQuotes rest2
    else c :: stripEscapedQuotes (d :: rest2)

/-- Transcription of the anchored text regex: a single quote, then characters
other than a single quote, then a closing single quote (VALID_TEXT_RE). -/
def textRegexMatches (l : List Char) : Bool :=
  match l with
  | [] => false
  | c :: rest =>
    c == quoteChar && !rest.isEmpty &&
      rest.dropLast.all (fun d => d != quoteChar) &&
      rest.getLast? == some quoteChar

/-- Whether a character list starts with an ascii digit; used to decide
whether a greedy digit run follows. -/
def digitLead : List Char → Bool
  | [] => false
  | d :: _ => d.isDigit

/-- Loop of replace_all for the regex matching the letter e followed by one
or more digits (VALID_INTEGER_PREP_RE): scan left to right and delete each
leftmost match together with its maximal digit run.  The fuel equals the
length of the list; every step consumes at least one character, so the fuel
is never exhausted. -/
def stripExpGo : Nat → List Char → List Char
  | 0, l => l
  | _ + 1, [] => []
  | fuel + 1, c :: rest =>
    if c == 'e' && digitLead rest then stripExpGo fuel (rest.dropWhile Char.isDigit)
    else c :: stripExpGo fuel rest

/-- Removal of every exponent substring (letter e followed by a maximal digit
run) from a character list. -/
def stripExp (l : List Char) : List Char :=
  stripExpGo l.length l

/-- Loop of replace_all for the real number preparation regex, the
alternation of: a dot followed by digits, the letter e followed by digits,
and the letter e followed by a minus and a single digit
(VALID_REAL_PREP_RE, src/db.rs line 917).  Branches are tried in the order
of the alternation at each position, as the regex engine does. -/
def stripRealGo : Nat → List Char → List Char
  | 0, l => l
  | _ + 1, [] => []
  | fuel + 1, c :: rest =>
    if c == '.' && digitLead rest then stripRealGo fuel (rest.dropWhile Char.isDigit)
    else if c == 'e' && digitLead rest then stripRealGo fuel (rest.dropWhile Char.isDigit)
    else if c == 'e' then
      match rest with
      | d :: d2 :: rest2 =>
        if d == '-' && d2.isDigit then stripRealGo fuel rest2
        else c :: stripRealGo fuel rest
      | _ => c :: stripRealGo fuel rest
    else c :: stripRealGo fuel rest

/-- Removal of fractional and exponent parts from a character list, as done
before the real number shape check. -/
def stripReal (l : List Char) : List Char :=
  stripRealGo l.length l

/-- Transcription of the anchored integer regex: zero or more minus signs
followed by one or more digits (VALID_INTEGER_RE, src/db.rs line 916; note
that the source pattern uses a starred minus, not an optional one).  The
anchored match holds exactly when dropping the leading minus signs leaves a
nonempty list of digits. -/
def intRegexMatches (l : List Char) : Bool :=
  let t := l.dropWhile (fun c => c == '-')
  !t.isEmpty && t.all Char.isDigit

/-- Model of Db::check_value_string: dispatch on the datatype, strip with the
preparation regex, then match against the shape regex; NULL and BLOB are
unsupported. -/
def checkValueString (value : String) (datatype : DataType) : Except Err Unit :=
  match datatype with
  | .TEXT =>
    if textRegexMatches (stripEscapedQuotes value.toList) then .ok ()
    else .error .invalidText
  | .INTEGER =>
    if intRegexMatches (stripExp value.toList) then .ok ()
    else .error .invalidInteger
  | .REAL =>
    if intRegexMatches (stripReal value.toList) then .ok ()
    else .error .invalidReal
  | _ => .error .unsupportedType

/-- Integer shape in the words of claim C6: after stripping exponent
suffixes, an optional single leading minus followed by digits. -/
def claimedIntegerShape (v : String) : Bool :=
  match stripExp v.toList with
  | '-' :: t => !t.isEmpty && t.all Char.isDigit
  | t => !t.isEmpty && t.all Char.isDigit

/-- Integer shape in the words of the amended claim C6: after removing every
substring of the letter e followed by a maximal digit run, zero or more
leading minus signs followed by at least one digit. -/
def amendedIntegerAccepts (v : String) : Bool :=
  let s := stripExp v.toList
  let minuses := s.takeWhile (fun c => c == '-')
  let rest := s.drop minuses.length
  !rest.isEmpty && rest.all Char.isDigit

/-- Fields of entries (src/db.rs, struct EntryField): an id and a raw value
string. -/
structure EntryField where
  id : String
  value : String
  deriving DecidableEq, Repr

/-- Database entries (src/db.rs, struct Entry). -/
structure Entry where
  catagory_id : String
  key : Nat
  location : String
  quantity : Nat
  created : Int
  modified : Int
  fields : List EntryField
  deriving DecidableEq, Repr

/-- One stored row of a catagory table: the five fixed columns KEY, LOCATION,
QUANTITY, CREATED, MODIFIED followed by the user columns as name and value
text pairs in declaration order.  Engine level literal coercion (for example
storing the text column value without its surrounding quotes) is not
modelled; no claim below depends on a stored value produced by an insert. -/
structure Row where
  key : Nat
  location : String
  quantity : Nat
  created : Int
  modified : Int
  rest : List (String × String)
  deriving DecidableEq, Repr

/-- One catagory table: the declared columns with their datatypes (the five
fixed columns first, as produced by Db::add_catagory) and the stored rows.
The KEY column is the table primary key. -/
structure Table where
  cols : List (String × DataType)
  rows : List Row
  deriving DecidableEq, Repr

/-- The whole backing database: the KEYS registry (KEY is its primary key)
and the catagory tables by name. -/
structure DbState where
  keys : List (Nat × String)
  tables : List (String × Table)
  deriving DecidableEq, Repr

/-- Keys present in the KEYS registry table. -/
def registeredKeys (st : DbState) : List Nat :=
  st.keys.map Prod.fst

/-- Lookup of a catagory table by name. -/
def lookupTable (st : DbState) (cat : String) : Option Table :=
  (st.tables.find? (fun p => p.1 == cat)).map Prod.snd

/-- Collapse of declared column types as reported by PRAGMA table_info and
read back by Db::grab_catagory_types: INTEGER and REAL survive, every other
declared type is reported as TEXT. -/
def pragmaType : DataType → DataType
  | .INTEGER => .INTEGER
  | .REAL => .REAL
  | _ => .TEXT

/-- Model of Db::field_type: find the position of the field id in the column
name list of the live table and return the type reported for that column;
bails with the field not found error when the id is not a column, and with
the no such table error when the catagory table does not exist (the prepare
of SELECT * fails in grab_catagory_fields). -/
def fieldType (st : DbState) (catagoryId fieldId : String) : Except Err DataType :=
  match lookupTable st catagoryId with
  | none => .error .noSuchTable
  | some t =>
    match t.cols.find? (fun c => c.1 == fieldId) with
    | none => .error .fieldNotFound
    | some c => .ok (pragmaType c.2)

/-- Model of Db::format_string_to_field: quote the value when the field type
is TEXT, leave it alone otherwise, then run the value validator on the
formatted result. -/
def formatStringToField (st : DbState) (catagoryId fieldId fieldValue : String) :
    Except Err String :=
  match fieldType st catagoryId fieldId with
  | .error e => .error e
  | .ok dt =>
    let out := match dt with
      | .TEXT => "'" ++ fieldValue ++ "'"
      | _ => fieldValue
    match checkValueString out dt with
    | .error e => .error e
    | .ok _ => .ok out

/-- Loop over the entry fields of Db::add_entry: format each value (which
validates it), skip the field when the formatted value is empty, then check
the field id, accumulating the id and formatted value pairs appended to the
insert statement. -/
def formatEntryFields (st : DbState) (catagoryId : String) :
    List EntryField → Except Err (List (String × String))
  | [] => .ok []
  | f :: rest =>
    match formatStringToField st catagoryId f.id f.value with
    | .error e => .error e
    | .ok v =>
      if v.length == 0 then formatEntryFields st catagoryId rest
      else
        match checkIdString f.id with
        | .error e => .error e
        | .ok _ =>
          match formatEntryFields st catagoryId rest with
          | .error e => .error e
          | .ok r => .ok ((f.id, v) :: r)

/-- Model of Db::add_key, an INSERT into the KEYS registry: the KEY column is
the registry primary key, so a duplicate key is a constraint violation. -/
def addKeyState (st : DbState) (key : Nat) (catagoryId : String) :
    Except Err DbState :=
  if st.keys.any (fun p => p.1 == key) then .error .sqlConstraint
  else .ok { st with keys := st.keys ++ [(key, catagoryId)] }

/-- Model of Db::remove_key, a DELETE from the KEYS registry by key. -/
def removeKeyState (st : DbState) (key : Nat) : DbState :=
  { st with keys := st.keys.filter (fun p => p.1 != key) }

/-- Model of Db::swap_key, the statement UPDATE KEYS SET KEY=new WHERE
KEY=old: with no matching row the update succeeds and changes nothing; with a
matching row it fails with a constraint violation when the new key is a
different, already registered key, and otherwise rewrites the matching
registry rows in place. -/
def swapKeyState (st : DbState) (oldKey newKey : Nat) : Except Err DbState :=
  if st.keys.any (fun p => p.1 == oldKey) then
    if newKey != oldKey && st.keys.any (fun p => p.1 == newKey) then
      .error .sqlConstraint
    else
      .ok { st with
            keys := st.keys.map (fun p => if p.1 == oldKey then (newKey, p.2) else p) }
  else .ok st

/-- Effect of the INSERT statement built by Db::add_entry on the catagory
table: fails when the table is missing and on a primary key collision,
otherwise appends the row. -/
def tableInsert (st : DbState) (catagoryId : String) (r : Row) :
    Except Err DbState :=
  match st.tables.find? (fun p => p.1 == catagoryId) with
  | none => .error .noSuchTable
  | some p =>
    if p.2.rows.any (fun q => q.key == r.key) then .error .sqlConstraint
    else
      .ok { st with
            tables := st.tables.map (fun q =>
              if q.1 == catagoryId then (q.1, { q.2 with rows := q.2.rows ++ [r] })
              else q) }

/-- Model of Db::add_entry, following the statement order of the source:
format and validate the location, format and validate every field, then
INSERT the key into the registry, then execute the table INSERT; if the table
INSERT fails the registry key is removed again as compensation and the
original error is returned.  The state is returned also on error, because the
compensation path mutates it. -/
def addEntry (st : DbState) (e : Entry) : DbState × Except Err Unit :=
  match formatStringToField st e.catagory_id "LOCATION" e.location with
  | .error er => (st, .error er)
  | .ok _loc =>
    match formatEntryFields st e.catagory_id e.fields with
    | .error er => (st, .error er)
    | .ok fs =>
      match addKeyState st e.key e.catagory_id with
      | .error er => (st, .error er)
      | .ok st1 =>
        match tableInsert st1 e.catagory_id
            { key := e.key, location := e.location, quantity := e.quantity,
              created := e.created, modified := e.modified, rest := fs } with
        | .ok st2 => (st2, .ok ())
        | .error er => (removeKeyState st1 e.key, .error er)

/-- Model of Db::grab_catagory_from_key, the query SELECT CATAGORY FROM KEYS
WHERE KEY=key: returns the catagory of the first matching registry row and
the key not found error when the key is unregistered. -/
def grabCatagoryFromKey (st : DbState) (key : Nat) : Except Err String :=
  match st.keys.find? (fun p => p.1 == key) with
  | none => .error .keyNotFound
  | some p => .ok p.2

/-- Column mapping of Db::query_to_entry: the five fixed columns by position,
then every trailing column as an entry field named after the column. -/
def rowToEntry (catagoryId : String) (r : Row) : Entry :=
  { catagory_id := catagoryId, key := r.key, location := r.location,
    quantity := r.quantity, created := r.created, modified := r.modified,
    fields := r.rest.map (fun p => { id := p.1, value := p.2 }) }

/-- Model of Db::grab_entry: resolve the catagory through the registry, then
SELECT the row by key from the catagory table. -/
def grabEntry (st : DbState) (key : Nat) : Except Err Entry :=
  match grabCatagoryFromKey st key with
  | .error e => .error e
  | .ok cat =>
    match lookupTable st cat with
    | none => .error .noSuchTable
    | some t =>
      match t.rows.find? (fun r => r.key == key) with
      | none => .error .queryNoRows
      | some r => .ok (rowToEntry cat r)

/-- Loop of Db::grab_next_available_key: probe keys upward from the start
until one is absent from the registry.  The fuel is the registry size plus
one: the probed values are pairwise distinct, so within length plus one
probes at least one is unregistered and the fuel is never exhausted. -/
def nextAvailableGo (keys : List Nat) : Nat → Nat → Nat
  | 0, k => k
  | fuel + 1, k => if keys.contains k then nextAvailableGo keys fuel (k + 1) else k

/-- First key at or after the start that is absent from the given key list. -/
def nextAvailable (keys : List Nat) (start : Nat) : Nat :=
  nextAvailableGo keys (keys.length + 1) start

/-- Model of Db::grab_next_available_key on the database state. -/
def grabNextAvailableKey (st : DbState) (start : Nat) : Nat :=
  nextAvailable (registeredKeys st) start

/-- Split of a character list on every occurrence of a separator character,
the behaviour of Rust str::split with a one character pattern: n separators
yield n plus one chunks, adjacent separators yield empty chunks. -/
def splitOnChar (sep : Char) : List Char → List (List Char)
  | [] => [[]]
  | c :: rest =>
    if c == sep then [] :: splitOnChar sep rest
    else
      match splitOnChar sep rest with
      | [] => [[c]]
      | chunk :: chunks => (c :: chunk) :: chunks

/-- Loop over the conditions of Db::search_catagory: each condition is split
on the equals character and must split into exactly two parts; the left part
is uppercased and the parts are rejoined with an equals sign, producing the
WHERE clause fragment for that condition.  A condition splitting into any
other number of parts bails with the invalid condition error. -/
def buildConditionClauses : List String → Except Err (List String)
  | [] => .ok []
  | c :: rest =>
    match splitOnChar '=' c.toList with
    | [idPart, valPart] =>
      match buildConditionClauses rest with
      | .error e => .error e
      | .ok r => .ok (String.mk (idPart.map Char.toUpper ++ '=' :: valPart) :: r)
    | _ => .error .invalidCondition

/-- Join of clause fragments with the AND keyword, as produced by the index
comparison in the source loop (a fragment is followed by AND when it is not
the last one). -/
def joinAnd : List String → String
  | [] => ""
  | [c] => c
  | c :: rest => c ++ " AND " ++ joinAnd rest

/-- Query construction of Db::search_catagory (src/db.rs lines 767 to 799):
with no conditions the query is the plain SELECT of the whole table, and
otherwise the accepted clause fragments are appended after WHERE, joined with
AND and terminated with a semicolon.  This models the SQL text handed to
query_to_entries; row evaluation of WHERE conditions happens inside the
backing engine and is modelled only for the empty condition list, see
selectAllEntries. -/
def searchCatagoryQuery (catagoryId : String) (conditions : List String) :
    Except Err String :=
  if conditions.isEmpty then .ok ("SELECT * FROM " ++ catagoryId)
  else
    match buildConditionClauses conditions with
    | .error e => .error e
    | .ok clauses =>
      .ok ("SELECT * FROM " ++ catagoryId ++ " WHERE " ++ joinAnd clauses ++ ";")

/-- Engine result of the plain SELECT of a whole catagory table, mapped
through the column mapping of query_to_entries: every stored row becomes one
entry. -/
def selectAllEntries (st : DbState) (catagoryId : String) :
    Except Err (List Entry) :=
  match lookupTable st catagoryId with
  | none => .error .noSuchTable
  | some t => .ok (t.rows.map (rowToEntry catagoryId))

/-- Split of a character list on the literal template placeholder token FOO!,
the behaviour of data.split("FOO!") in Db::fill_svg_template: leftmost,
non overlapping matches. -/
def splitFoo : List Char → List (List Char)
  | 'F' :: 'O' :: 'O' :: '!' :: rest => [] :: splitFoo rest
  | c :: rest =>
    match splitFoo rest with
    | [] => [[c]]
    | chunk :: chunks => (c :: chunk) :: chunks
  | [] => [[]]

/-- Loop of Db::fill_svg_template over the chunks: push the chunk, scan for
the next unused key from the running key counter, encode and push it for
every chunk except the last (the scan also runs for the last chunk in the
source, but it reads the registry only, so it has no observable effect), and
continue the next scan at the found key plus one.  A none result models the
panic of b64::from_u64 on a key the codec cannot encode. -/
def fillChunks (st : DbState) : Nat → List String → Option String
  | _, [] => some ""
  | _, [chunk] => some chunk
  | key, chunk :: rest =>
    let k := grabNextAvailableKey st key
    match fromU64 k with
    | none => none
    | some enc =>
      match fillChunks st (k + 1) rest with
      | none => none
      | some filled => some (chunk ++ enc ++ filled)

/-- Model of Db::fill_svg_template: split the text on the placeholder token
and fill the boundaries with successive unused keys in encoded form.  The
function takes the state read only, mirroring the shared borrow of the
source: no key is registered by filling a template. -/
def fillSvgTemplate (st : DbState) (data : String) : Option String :=
  fillChunks st 0 ((splitFoo data.toList).map (fun l => String.mk l))

/-- Assignment values appearing in the SET clause built by Db::mod_entry: the
new key is a number obtained by decoding the field value, the modification
stamp is a number, every other field carries its formatted value text. -/
inductive AVal where
  | natV (n : Nat)
  | intV (i : Int)
  | strV (s : String)
  deriving DecidableEq, Repr

/-- Rendering of an assignment value as the text that appears in the SET
clause of the source. -/
def renderAVal : AVal → String
  | .natV n => toString n
  | .intV i => toString i
  | .strV s => s

/-- Application of one SET assignment to a row.  KEY and MODIFIED are fixed
columns of the row; LOCATION stores the assigned text; every other column is
updated inside the trailing column list by name.  Engine level numeric
coercion of the fixed QUANTITY and CREATED columns is not modelled, no claim
exercises it. -/
def applyAssign (r : Row) (a : String × AVal) : Row :=
  if a.1 == "KEY" then
    match a.2 with
    | .natV n => { r with key := n }
    | _ => r
  else if a.1 == "MODIFIED" then
    match a.2 with
    | .intV i => { r with modified := i }
    | _ => r
  else if a.1 == "LOCATION" then
    match a.2 with
    | .strV s => { r with location := s }
    | _ => r
  else
    { r with rest := r.rest.map (fun p =>
        if p.1 == a.1 then (p.1, renderAVal a.2) else p) }

/-- Application of a whole SET clause to a row, in clause order. -/
def applyAssigns (assigns : List (String × AVal)) (r : Row) : Row :=
  assigns.foldl applyAssign r

/-- Effect of the UPDATE statement built by Db::mod_entry on a catagory
table.  The parts list models the comma separated pieces of the SET clause
text: a none entry is an empty piece (the source always appends a comma after
the MODIFIED assignment, so with no fields the clause ends in a trailing
comma and its final piece is empty), which the engine rejects as a syntax
error while parsing, before resolving the table or the columns.  After
parsing, an assignment naming a column the table does not have fails, an
update whose new key collides with a different existing row fails with a
constraint violation, and otherwise all rows matching the WHERE key are
rewritten in place. -/
def execUpdate (st : DbState) (catagoryId : String)
    (parts : List (Option (String × AVal))) (whereKey : Nat) :
    Except Err DbState :=
  if parts.any (fun p => p.isNone) then .error .sqlSyntax
  else
    let assigns := parts.filterMap (fun p => p)
    match st.tables.find? (fun p => p.1 == catagoryId) with
    | none => .error .noSuchTable
    | some tp =>
      if assigns.any (fun a => !((tp.2.cols.map Prod.fst).contains a.1)) then
        .error .noSuchColumn
      else
        let updated := (tp.2.rows.filter (fun r => r.key == whereKey)).map
          (applyAssigns assigns)
        if updated.any (fun u =>
            tp.2.rows.any (fun r => r.key != whereKey && r.key == u.key)) then
          .error .sqlConstraint
        else
          .ok { st with
                tables := st.tables.map (fun q =>
                  if q.1 == catagoryId then
                    (q.1, { q.2 with rows := q.2.rows.map (fun r =>
                        if r.key == whereKey then applyAssigns assigns r else r) })
                  else q) }

/-- Loop over the fields of Db::mod_entry: a field named KEY is decoded from
base64 (a decode failure propagates before anything is written) and recorded
as the new key with its decimal text in the clause; every other field is
formatted and validated against its column.  The returned option is the last
new key recorded, as in the source where each KEY field overwrites new_key. -/
def buildFieldAssigns (st : DbState) (catagoryId : String) :
    List EntryField → Except Err (List (String × AVal) × Option Nat)
  | [] => .ok ([], none)
  | f :: rest =>
    if f.id == "KEY" then
      match toU64 f.value with
      | .error e => .error e
      | .ok k =>
        match buildFieldAssigns st catagoryId rest with
        | .error e => .error e
        | .ok (as, nk) => .ok ((f.id, AVal.natV k) :: as, nk.orElse (fun _ => some k))
    else
      match formatStringToField st catagoryId f.id f.value with
      | .error e => .error e
      | .ok v =>
        match buildFieldAssigns st catagoryId rest with
        | .error e => .error e
        | .ok (as, nk) => .ok ((f.id, AVal.strV v) :: as, nk)

/-- Model of Db::mod_entry: resolve the catagory through the registry, build
the SET clause starting with the MODIFIED stamp followed by the field
assignments (with the empty trailing piece of the clause when the field list
is empty, the trailing comma of the source), swap the registry key before the
UPDATE when a new key was given, execute the UPDATE, and on an UPDATE error
swap the registry key back and surface the original error.  The modification
stamp is a parameter, standing for Local::now. -/
def modEntry (st : DbState) (now : Int) (key : Nat) (fields : List EntryField) :
    DbState × Except Err Unit :=
  match grabCatagoryFromKey st key with
  | .error e => (st, .error e)
  | .ok cat =>
    match buildFieldAssigns st cat fields with
    | .error e => (st, .error e)
    | .ok (assigns, newKey) =>
      let parts : List (Option (String × AVal)) :=
        some ("MODIFIED", AVal.intV now) :: assigns.map some ++
          (if assigns.isEmpty then [none] else [])
      match newKey with
      | none =>
        match execUpdate st cat parts key with
        | .ok st2 => (st2, .ok ())
        | .error e => (st, .error e)
      | some nk =>
        match swapKeyState st key nk with
        | .error e => (st, .error e)
        | .ok st1 =>
          match execUpdate st1 cat parts key with
          | .ok st2 => (st2, .ok ())
          | .error e =>
            match swapKeyState st1 nk key with
            | .ok st3 => (st3, .error e)
            | .error e2 => (st1, .error e2)

/-- Well formedness of a database state, the invariant maintained by the
engine operations: registered keys are pairwise distinct (KEY is the registry
primary key), table names are pairwise distinct, every stored row is
registered under the name of its table, row keys are pairwise distinct inside
every table (KEY is the table primary key), and every table has the fixed
KEY and MODIFIED columns created by Db::add_catagory. -/
def WfDb (st : DbState) : Prop :=
  (st.keys.map Prod.fst).Nodup ∧
  (st.tables.map Prod.fst).Nodup ∧
  (∀ p ∈ st.tables, ∀ r ∈ p.2.rows, (r.key, p.1) ∈ st.keys) ∧
  (∀ p ∈ st.tables, (p.2.rows.map Row.key).Nodup) ∧
  (∀ p ∈ st.tables, "KEY" ∈ p.2.cols.map Prod.fst ∧
    "MODIFIED" ∈ p.2.cols.map Prod.fst)

/-- Whether some stored row of some catagory table carries the given key. -/
def keyCollides (st : DbState) (key : Nat) : Prop :=
  ∃ p ∈ st.tables, ∃ r ∈ p.2.rows, r.key = key

instance (st : DbState) : Decidable (WfDb st) := by
  unfold WfDb; infer_instance

instance (st : DbState) (key : Nat) : Decidable (keyCollides st key) := by
  unfold keyCollides; infer_instance

/-- Fixed leading columns of every catagory table, as created by
Db::add_catagory. -/
def fixedCols : List (String × DataType) :=
  [("KEY", .INTEGER), ("LOCATION", .TEXT), ("QUANTITY", .INTEGER),
   ("CREATED", .INTEGER), ("MODIFIED", .INTEGER)]

/-- Concrete row used by the witness states: key 0, location x. -/
def rowW : Row :=
  { key := 0, location := "x", quantity := 1, created := 0, modified := 0,
    rest := [] }

/-- Concrete one column table used by the witness states. -/
def tableW : Table :=
  { cols := fixedCols, rows := [rowW] }

/-- Concrete witness state: one catagory A holding one row with key 0, and
that key registered. -/
def stW : DbState :=
  { keys := [(0, "A")], tables := [("A", tableW)] }

/-- Concrete empty witness state: registry and tables empty. -/
def stEmpty : DbState :=
  { keys := [], tables := [] }

/-- Concrete entry colliding with the stored row of the witness state. -/
def entryW : Entry :=
  { catagory_id := "A", key := 0, location := "y", quantity := 2, created := 3,
    modified := 4, fields := [] }

/-- Entry stored in the witness state, as returned by grabEntry. -/
def entryW0 : Entry :=
  { catagory_id := "A", key := 0, location := "x", quantity := 1, created := 0,
    modified := 0, fields := [] }

/-- Dense state registering the keys 0 up to 4095, used to exhibit the codec
panic reachable from fill_svg_template. -/
def stDense : DbState :=
  { keys := (List.range 4096).map (fun n => (n, "A")), tables := [] }

/-- Whether an Except value is a success. -/
def exceptIsOk {ε α : Type} : Except ε α → Bool
  | .ok _ => true
  | .error _ => false

/-- Pointwise equal predicates give equal all results. -/
theorem all_ext {α : Type} (p q : α → Bool) (h : ∀ a, p a = q a) :
    ∀ l : List α, l.all p = l.all q := by
  intro l
  induction l with
  | nil => rfl
  | cons c rest ih => simp only [List.all_cons, h, ih]

/-- Dropping a predicate that holds of every element drops everything. -/
theorem dropWhile_nil_of_all {α : Type} (p : α → Bool) (l : List α)
    (h : l.all p = true) : l.dropWhile p = [] := by
  induction l with
  | nil => rfl
  | cons c rest ih =>
    simp only [List.all_cons, Bool.and_eq_true] at h
    simp [List.dropWhile_cons, h.1, ih h.2]

/-- Membership in a Nat list through the Bool contains function. -/
theorem contains_iff_mem_nat {l : List Nat} {a : Nat} :
    l.contains a = true ↔ a ∈ l := by
  simp

/-- Unfolding equation of the probing loop for positive fuel. -/
theorem nextAvailableGo_succ (keys : List Nat) (fuel start : Nat) :
    nextAvailableGo keys (fuel + 1) start =
      if keys.contains start then nextAvailableGo keys fuel (start + 1)
      else start := rfl

/-- find? returns the unique element satisfying the predicate when there is
exactly one. -/
theorem find?_unique {α : Type} (p : α → Bool) (x : α) :
    ∀ l : List α, x ∈ l → p x = true → (∀ y ∈ l, p y = true → y = x) →
      l.find? p = some x := by
  intro l
  induction l with
  | nil => intro h; cases h
  | cons c rest ih =>
    intro hmem hpx huniq
    by_cases hc : p c = true
    · have hcx : c = x := huniq c (List.mem_cons_self c rest) hc
      subst hcx
      exact List.find?_cons_of_pos rest hc
    · have hx : x ∈ rest := by
        rcases List.mem_cons.mp hmem with h | h
        · exact absurd (h ▸ hpx) hc
        · exact h
      rw [List.find?_cons_of_neg rest (by simpa using hc)]
      exact ih hx hpx (fun y hy hpy => huniq y (List.mem_cons_of_mem c hy) hpy)

/-- Specification of the probing loop of grab_next_available_key: when some
key in the probed window is unregistered, the loop stops at the first
unregistered key at or after the start. -/
theorem nextAvailableGo_spec (keys : List Nat) :
    ∀ fuel start,
      (∃ j, start ≤ j ∧ j < start + fuel ∧ keys.contains j = false) →
      keys.contains (nextAvailableGo keys fuel start) = false ∧
      start ≤ nextAvailableGo keys fuel start ∧
      ∀ j, start ≤ j → j < nextAvailableGo keys fuel start →
        keys.contains j = true := by
  intro fuel
  induction fuel with
  | zero =>
    rintro start ⟨j, h1, h2, _⟩
    omega
  | succ fuel ih =>
    rintro start ⟨j, hj1, hj2, hj3⟩
    by_cases hc : keys.contains start = true
    · have hjs : j ≠ start := fun h => by rw [h] at hj3; rw [hc] at hj3; cases hj3
      have hex : ∃ j2, start + 1 ≤ j2 ∧ j2 < (start + 1) + fuel ∧
          keys.contains j2 = false := ⟨j, by omega, by omega, hj3⟩
      obtain ⟨a, b, c⟩ := ih (start + 1) hex
      rw [nextAvailableGo_succ, if_pos hc]
      refine ⟨a, by omega, ?_⟩
      intro j2 h1 h2
      rcases Nat.eq_or_lt_of_le h1 with h | h
      · rw [← h]; exact hc
      · exact c j2 (by omega) h2
    · rw [nextAvailableGo_succ, if_neg hc]
      have hcf : keys.contains start = false := by
        revert hc; cases keys.contains start <;> simp
      exact ⟨hcf, Nat.le_refl start, fun j2 h1 h2 => by omega⟩

/-- Pigeonhole bound for the probing loop: among length plus one consecutive
candidates at least one is absent from the key list. -/
theorem exists_unregistered (keys : List Nat) (start : Nat) :
    ∃ j, start ≤ j ∧ j < start + (keys.length + 1) ∧
      keys.contains j = false := by
  by_contra hno
  push_neg at hno
  have hall : ∀ j, start ≤ j → j < start + (keys.length + 1) → j ∈ keys := by
    intro j h1 h2
    have := hno j h1 h2
    have ht : keys.contains j = true := by
      revert this; cases keys.contains j <;> simp
    exact contains_iff_mem_nat.mp ht
  have hsub : (List.range' start (keys.length + 1)).Subset keys := by
    intro x hx
    have hm := List.mem_range'_1.mp hx
    exact hall x hm.1 hm.2
  have hnd : (List.range' start (keys.length + 1)).Nodup :=
    List.nodup_range' start (keys.length + 1)
  have hle := (List.subperm_of_subset hnd hsub).length_le
  simp [List.length_range'] at hle

/-- Specification of nextAvailable: the result is unregistered, at or after
the start, and every value strictly between is registered. -/
theorem nextAvailable_spec (keys : List Nat) (start : Nat) :
    keys.contains (nextAvailable keys start) = false ∧
    start ≤ nextAvailable keys start ∧
    ∀ j, start ≤ j → j < nextAvailable keys start → keys.contains j = true :=
  nextAvailableGo_spec keys (keys.length + 1) start
    (exists_unregistered keys start)

/-- On the dense list of all keys below n, the scan from zero lands on n. -/
theorem nextAvailable_range (n : Nat) : nextAvailable (List.range n) 0 = n := by
  obtain ⟨ha, _, hc⟩ := nextAvailable_spec (List.range n) 0
  set r := nextAvailable (List.range n) 0 with hr
  have h1 : ¬ r < n := by
    intro h
    have : (List.range n).contains r = true :=
      contains_iff_mem_nat.mpr (List.mem_range.mpr h)
    rw [this] at ha; cases ha
  have h2 : ¬ n < r := by
    intro h
    have := hc n (Nat.zero_le n) h
    have : n ∈ List.range n := contains_iff_mem_nat.mp this
    exact absurd (List.mem_range.mp this) (Nat.lt_irrefl n)
  omega

/-- The registered keys of the dense witness state are exactly the range. -/
theorem registeredKeys_stDense : registeredKeys stDense = List.range 4096 := by
  unfold registeredKeys stDense
  rw [List.map_map]
  have h : (Prod.fst ∘ fun n : Nat => (n, "A")) = id := rfl
  rw [h, List.map_id]

/-- The encoder loop on a zero numeral returns the empty digit list for any
fuel. -/
theorem fromU64Go_zero (fuel i : Nat) : fromU64Go fuel 0 i = some [] := by
  cases fuel <;> rfl

/-- The encoder succeeds below 4096, where at most two digits are emitted and
every emitted digit value stays below the table size. -/
theorem fromU64_isSome_of_lt (n : Nat) (h : n < 4096) :
    (fromU64 n).isSome = true := by
  by_cases h0 : n = 0
  · subst h0; rfl
  · unfold fromU64
    rw [if_neg h0]
    obtain ⟨m, hm⟩ := Nat.exists_eq_succ_of_ne_zero h0
    subst hm
    have hstep : fromU64Go (m + 1) (m + 1) 64 =
        match TABLE[(m + 1) % 64]? with
        | none => none
        | some c =>
          match fromU64Go m ((m + 1) / 64) (64 * 64) with
          | none => none
          | some rest => some (c :: rest) := rfl
    have hlt : (m + 1) % 64 < TABLE.length := by
      have : (m + 1) % 64 < 64 := Nat.mod_lt _ (by omega)
      simpa [TABLE] using this
    obtain ⟨c1, hc1⟩ : ∃ c, TABLE[(m + 1) % 64]? = some c := by
      rcases h1 : TABLE[(m + 1) % 64]? with _ | c
      · rw [List.getElem?_eq_none_iff] at h1; omega
      · exact ⟨c, rfl⟩
    have hd : (m + 1) / 64 < 64 := by
      rw [Nat.div_lt_iff_lt_mul (by omega)]
      omega
    rcases h2 : (m + 1) / 64 with _ | d
    · rw [hstep, hc1, h2, fromU64Go_zero]
      simp
    · have hm1 : 64 ≤ m + 1 := by
        by_contra hx
        have : (m + 1) / 64 = 0 := Nat.div_eq_of_lt (by omega)
        omega
      obtain ⟨f, hf⟩ : ∃ f, m = f + 1 := ⟨m - 1, by omega⟩
      have hmod : (d + 1) % (64 * 64) = d + 1 := Nat.mod_eq_of_lt (by omega)
      have hlt2 : (d + 1) % (64 * 64) < TABLE.length := by
        rw [hmod]; simpa [TABLE] using (by omega : d + 1 < 64)
      obtain ⟨c2, hc2⟩ : ∃ c, TABLE[(d + 1) % (64 * 64)]? = some c := by
        rcases h3 : TABLE[(d + 1) % (64 * 64)]? with _ | c
        · rw [List.getElem?_eq_none_iff] at h3; omega
        · exact ⟨c, rfl⟩
      have hdiv2 : (d + 1) / (64 * 64) = 0 := Nat.div_eq_of_lt (by omega)
      have hstep2 : fromU64Go m (d + 1) (64 * 64) =
          match TABLE[(d + 1) % (64 * 64)]? with
          | none => none
          | some c =>
            match fromU64Go f ((d + 1) / (64 * 64)) (64 * 64 * 64) with
            | none => none
            | some rest => some (c :: rest) := by
        rw [hf]
        rfl
      have hzero : fromU64Go f ((d + 1) / (64 * 64)) (64 * 64 * 64) = some [] := by
        rw [hdiv2, fromU64Go_zero]
      rw [hstep, hc1, h2, hstep2, hc2, hzero]
      simp

/-- find? commutes with a map that leaves the predicate unchanged. -/
theorem find?_map_pres {α : Type} (g : α → α) (p : α → Bool)
    (hp : ∀ x, p (g x) = p x) :
    ∀ l : List α, (l.map g).find? p = (l.find? p).map g := by
  intro l
  induction l with
  | nil => rfl
  | cons c rest ih =>
    by_cases hc : p c = true
    · rw [List.map_cons, List.find?_cons_of_pos rest hc,
        List.find?_cons_of_pos _ (by rw [hp]; exact hc), Option.map_some']
    · rw [List.map_cons, List.find?_cons_of_neg rest (by simpa using hc),
        List.find?_cons_of_neg _ (by rw [hp]; simpa using hc), ih]

/-- Dropping the longest matching lead equals dropping as many elements as
the longest matching lead has. -/
theorem drop_length_takeWhile {α : Type} (p : α → Bool) :
    ∀ l : List α, l.drop (l.takeWhile p).length = l.dropWhile p := by
  intro l
  induction l with
  | nil => rfl
  | cons c rest ih =>
    by_cases hc : p c = true
    · simp [List.takeWhile_cons, List.dropWhile_cons, hc, ih]
    · have hc2 : p c = false := by revert hc; cases p c <;> simp
      simp [List.takeWhile_cons, List.dropWhile_cons, hc2]

/-- Claim C1.  The spec states that decoding the codec encoding of any u64
returns the value: decode(encode(n)) == n for every n.  The code violates
this: from_u64 multiplies its divisor by 64 each iteration, so encoding 4096
indexes the 64 entry numeral table at position 64 and panics (modelled as
none), and encoding 262144 produces the text 100 which decodes to 4096, not
262144. -/
theorem claimC1 :
    fromU64 4096 = none ∧
    fromU64 262144 = some "100" ∧
    toU64 "100" = .ok 4096 := by
  refine ⟨by decide, by decide, by decide⟩

/-- Claim C9.  Decoding the empty string, or a string consisting only of
whitespace, returns Ok 0: to_u64 trims the input and an input with no digits
yields the initial accumulator 0. -/
theorem claimC9 (s : String) (h : s.toList.all rustIsWs = true) :
    toU64 s = .ok 0 := by
  unfold toU64 rustTrim
  rw [dropWhile_nil_of_all rustIsWs s.toList h]
  rfl

/-- Witness for claim C9 at the empty string. -/
theorem claimC9_witness : ("".toList.all rustIsWs = true) ∧ toU64 "" = .ok 0 :=
  ⟨by decide, claimC9 "" (by decide)⟩

/-- Claim C5.  validateIdentifier succeeds exactly when the string starts
with an uppercase ascii letter and its remaining characters contain no
lowercase letters, none of the characters of the excluded class, and no
whitespace; FOO and FOO0 pass while FOO+, foo and 0foo fail.  The first
conjunct states that the transcribed regex of check_id_string agrees with the
rule as the spec words it on every string. -/
theorem claimC5 :
    (∀ s : String, idRegexAccepts s.toList = specIdValid s.toList) ∧
    checkIdString "FOO" = .ok () ∧
    checkIdString "FOO0" = .ok () ∧
    checkIdString "FOO+" = .error .invalidId ∧
    checkIdString "foo" = .error .invalidId ∧
    checkIdString "0foo" = .error .invalidId := by
  refine ⟨?_, by decide, by decide, by decide, by decide, by decide⟩
  intro s
  cases s.toList with
  | nil => rfl
  | cons c rest =>
    have hpt : ∀ d : Char,
        (!rustIsWs d && !(d.isLower || idExcluded.contains d)) =
        (!d.isLower && !idExcluded.contains d && !rustIsWs d) := by
      intro d
      cases h1 : rustIsWs d <;> cases h2 : d.isLower <;>
        cases h3 : idExcluded.contains d <;> simp [h1, h2, h3]
    rw [show idRegexAccepts (c :: rest) =
          (c.isUpper && rest.all
            (fun d => !rustIsWs d && !(d.isLower || idExcluded.contains d)))
        from rfl,
        show specIdValid (c :: rest) =
          (c.isUpper && rest.all
            (fun d => !d.isLower && !idExcluded.contains d && !rustIsWs d))
        from rfl]
    exact congrArg (fun b => c.isUpper && b) (all_ext _ _ hpt rest)

/-- Counterexample for claim C6: the integer regex of the source uses a
starred minus, so the value consisting of two minus signs and a digit is
accepted by the code although it is not an optional single minus followed by
digits as the claim states. -/
theorem claimC6_counterexample :
    checkValueString "--1" .INTEGER = .ok () ∧
    claimedIntegerShape "--1" = false := by
  refine ⟨by decide, by decide⟩

/-- Claim C6 (amended).  validateValue with the Integer type succeeds exactly
when the value, after removing every substring of the letter e followed by a
maximal run of digits, consists of zero or more leading minus signs followed
by one or more digits; 1e3 succeeds (and so does the double minus value), and
1.0 fails with the invalid integer error. -/
theorem claimC6 :
    (∀ v : String,
      checkValueString v .INTEGER =
        (if amendedIntegerAccepts v then .ok () else .error .invalidInteger)) ∧
    checkValueString "1e3" .INTEGER = .ok () ∧
    checkValueString "--1" .INTEGER = .ok () ∧
    checkValueString "1.0" .INTEGER = .error .invalidInteger := by
  refine ⟨?_, by decide, by decide, by decide⟩
  intro v
  have hsame : amendedIntegerAccepts v = intRegexMatches (stripExp v.toList) := by
    simp only [amendedIntegerAccepts, intRegexMatches, drop_length_takeWhile]
  rw [hsame]
  unfold checkValueString
  rfl

/-- Claim C4.  nextAvailableKey returns the smallest key at or after the
start that is absent from the key registry: the result is not registered,
the start does not exceed it, and every value from the start up to the result
is registered. -/
theorem claimC4 (st : DbState) (start : Nat) :
    (registeredKeys st).contains (grabNextAvailableKey st start) = false ∧
    start ≤ grabNextAvailableKey st start ∧
    (List.range' start (grabNextAvailableKey st start - start)).all
      (fun j => (registeredKeys st).contains j) = true := by
  unfold grabNextAvailableKey
  obtain ⟨ha, hb, hc⟩ := nextAvailable_spec (registeredKeys st) start
  refine ⟨ha, hb, ?_⟩
  rw [List.all_eq_true]
  intro x hx
  obtain ⟨h1, h2⟩ := List.mem_range'_1.mp hx
  exact hc x h1 (by omega)

/-- Claim C10.  For a key resolvable in the registry, modEntry with an empty
field list fails and leaves the state unchanged: the SET clause of the
generated UPDATE keeps the trailing comma appended after the MODIFIED
assignment, so its final piece is empty and the engine rejects the statement
as a syntax error before updating anything, including MODIFIED. -/
theorem claimC10 (st : DbState) (now : Int) (key : Nat) (cat : String)
    (h : grabCatagoryFromKey st key = .ok cat) :
    modEntry st now key [] = (st, .error .sqlSyntax) ∧
    grabEntry (modEntry st now key []).1 key = grabEntry st key := by
  have hmod : modEntry st now key [] = (st, .error .sqlSyntax) := by
    unfold modEntry
    rw [h]
    rfl
  exact ⟨hmod, by rw [hmod]⟩

/-- Witness for claim C10 at the concrete one row state. -/
theorem claimC10_witness : modEntry stW 7 0 [] = (stW, .error .sqlSyntax) :=
  (claimC10 stW 7 0 "A" (by decide)).1

/-- Claim C2.  With a well formed state, adding an entry whose key already
collides with an existing stored row fails, leaves the state unchanged (so
the registry holds no orphaned entry for the rejected key beyond the original
registration), and grabEntry on that key afterwards returns exactly what it
returned before, the original row.  Under the registry invariant the
colliding key is already registered, so the failure is raised by the key
insert of step one (the same INSERT error category the table insert would
raise); when the registry row was inserted first the compensation branch of
addEntry removes it again, as the last match arm of the definition shows. -/
theorem claimC2 (st : DbState) (e : Entry) (hwf : WfDb st)
    (hcol : keyCollides st e.key) :
    (addEntry st e).1 = st ∧
    exceptIsOk (addEntry st e).2 = false ∧
    grabEntry (addEntry st e).1 e.key = grabEntry st e.key := by
  obtain ⟨p, hp, r, hr, hkey⟩ := hcol
  have hreg : (e.key, p.1) ∈ st.keys := by
    have := hwf.2.2.1 p hp r hr
    rw [hkey] at this
    exact this
  have hany : st.keys.any (fun q => q.1 == e.key) = true := by
    rw [List.any_eq_true]
    exact ⟨(e.key, p.1), hreg, by simp⟩
  have hadd : addKeyState st e.key e.catagory_id = .error .sqlConstraint := by
    unfold addKeyState
    rw [if_pos hany]
  unfold addEntry
  cases hl : formatStringToField st e.catagory_id "LOCATION" e.location with
  | error er => exact ⟨rfl, rfl, rfl⟩
  | ok loc =>
    cases hf : formatEntryFields st e.catagory_id e.fields with
    | error er => exact ⟨rfl, rfl, rfl⟩
    | ok fs =>
      rw [hadd]
      exact ⟨rfl, rfl, rfl⟩

/-- Witness for claim C2: the concrete one row state and an entry reusing its
key. -/
theorem claimC2_witness :
    (addEntry stW entryW).1 = stW ∧
    exceptIsOk (addEntry stW entryW).2 = false ∧
    grabEntry (addEntry stW entryW).1 entryW.key = grabEntry stW entryW.key :=
  claimC2 stW entryW (by decide) (by decide)

/-- Acceptance of the condition list by the clause builder: the build
succeeds exactly when every condition splits on the equals character into
exactly two parts. -/
theorem buildConditionClauses_ok (conds : List String) :
    exceptIsOk (buildConditionClauses conds) =
      conds.all (fun c => (splitOnChar '=' c.toList).length == 2) := by
  induction conds with
  | nil => rfl
  | cons c rest ih =>
    rcases hs : splitOnChar '=' c.toList with _ | ⟨a, _ | ⟨b, _ | ⟨c2, l⟩⟩⟩
    · simp only [buildConditionClauses, hs, List.all_cons]
      rfl
    · simp only [buildConditionClauses, hs, List.all_cons]
      rfl
    · simp only [buildConditionClauses, hs, List.all_cons]
      rw [← ih]
      cases buildConditionClauses rest <;> rfl
    · simp only [buildConditionClauses, hs, List.all_cons]
      rfl

/-- Counterexample for claim C7: conditions written with the bare less than
or bare greater than operator contain no equals character, so the source
split on equals yields a single part and search_catagory rejects them as
invalid conditions instead of accepting every comparison operator. -/
theorem claimC7_counterexample :
    searchCatagoryQuery "RESISTOR" ["OHMS<8"] = .error .invalidCondition ∧
    searchCatagoryQuery "RESISTOR" ["OHMS>8"] = .error .invalidCondition := by
  refine ⟨by decide, by decide⟩

/-- Claim C7 (amended).  searchCatagory accepts a condition exactly when it
splits on the equals character into exactly two parts, so the infix operators
written with an equals sign (equality, inequality, at most, at least) are
accepted while bare less than and bare greater than are rejected as invalid
conditions; accepted conditions are uppercased on the left of the equals
sign, rejoined, and joined with AND into a SELECT over the catagory table;
an empty condition list issues the plain SELECT of the catagory and returns
all of its rows. -/
theorem claimC7 :
    (∀ (cat : String) (conds : List String),
      exceptIsOk (searchCatagoryQuery cat conds) =
        conds.all (fun c => (splitOnChar '=' c.toList).length == 2)) ∧
    searchCatagoryQuery "RESISTOR" ["ohms<=8.2e6", "watts!=2"] =
      .ok "SELECT * FROM RESISTOR WHERE OHMS<=8.2e6 AND WATTS!=2;" ∧
    searchCatagoryQuery "RESISTOR" [] = .ok "SELECT * FROM RESISTOR" ∧
    (∀ (st : DbState) (cat : String) (t : Table),
      lookupTable st cat = some t →
      selectAllEntries st cat = .ok (t.rows.map (rowToEntry cat))) := by
  refine ⟨?_, by decide, by decide, ?_⟩
  · intro cat conds
    cases conds with
    | nil => rfl
    | cons c rest =>
      have hb := buildConditionClauses_ok (c :: rest)
      unfold searchCatagoryQuery
      rw [if_neg (by simp)]
      rw [← hb]
      cases buildConditionClauses (c :: rest) <;> rfl
  · intro st cat t h
    unfold selectAllEntries
    rw [h]

/-- Witness for claim C7 at the concrete one row state. -/
theorem claimC7_witness :
    selectAllEntries stW "A" = .ok [rowToEntry "A" rowW] :=
  claimC7.2.2.2 stW "A" tableW (by decide)

/-- Claim C8 (amended).  On a text splitting into three chunks at two
placeholder tokens, and provided both allocated keys stay below 4096 (above
that bound the codec panics, see claim C1), fillTemplate returns the text
with the tokens replaced by the encodings of two currently unregistered keys
in strictly ascending order, the second scan starting from the first
allocation plus one.  The model function reads the state and returns only
text, mirroring the shared borrow of the source: no key is registered. -/
theorem claimC8 (st : DbState) (data pre mid post : String) (k1 k2 : Nat)
    (hsplit : (splitFoo data.toList).map (fun l => String.mk l) = [pre, mid, post])
    (hk1 : k1 = grabNextAvailableKey st 0)
    (hk2 : k2 = grabNextAvailableKey st (k1 + 1))
    (hb1 : k1 < 4096) (hb2 : k2 < 4096) :
    ∃ e1 e2 : String,
      fromU64 k1 = some e1 ∧ fromU64 k2 = some e2 ∧
      fillSvgTemplate st data = some (pre ++ e1 ++ mid ++ e2 ++ post) ∧
      (registeredKeys st).contains k1 = false ∧
      (registeredKeys st).contains k2 = false ∧
      k1 < k2 := by
  obtain ⟨e1, he1⟩ := Option.isSome_iff_exists.mp (fromU64_isSome_of_lt k1 hb1)
  obtain ⟨e2, he2⟩ := Option.isSome_iff_exists.mp (fromU64_isSome_of_lt k2 hb2)
  have hs1 := nextAvailable_spec (registeredKeys st) 0
  have hs2 := nextAvailable_spec (registeredKeys st) (k1 + 1)
  refine ⟨e1, e2, he1, he2, ?_, ?_, ?_, ?_⟩
  · unfold fillSvgTemplate
    rw [hsplit]
    have h3 : fillChunks st 0 [pre, mid, post] =
        match fromU64 (grabNextAvailableKey st 0) with
        | none => none
        | some enc =>
          match fillChunks st (grabNextAvailableKey st 0 + 1) [mid, post] with
          | none => none
          | some filled => some (pre ++ enc ++ filled) := rfl
    have h2 : fillChunks st (k1 + 1) [mid, post] =
        match fromU64 (grabNextAvailableKey st (k1 + 1)) with
        | none => none
        | some enc =>
          match fillChunks st (grabNextAvailableKey st (k1 + 1) + 1) [post] with
          | none => none
          | some filled => some (mid ++ enc ++ filled) := rfl
    have hlast : ∀ n : Nat, fillChunks st n [post] = some post := fun n => rfl
    rw [h3, ← hk1, he1, h2, ← hk2, he2, hlast]
    show some (pre ++ e1 ++ (mid ++ e2 ++ post)) =
      some (pre ++ e1 ++ mid ++ e2 ++ post)
    have hassoc : (pre ++ e1 ++ (mid ++ e2 ++ post)) =
        (pre ++ e1 ++ mid ++ e2 ++ post) := by
      simp [String.append_assoc]
    rw [hassoc]
  · rw [hk1]; exact hs1.1
  · rw [hk2]; exact hs2.1
  · rw [hk2]
    unfold grabNextAvailableKey
    have := hs2.2.1
    omega

set_option maxRecDepth 4000 in
/-- Witness for claim C8: the empty state allocates the keys 0 and 1 into a
two token template. -/
theorem claimC8_witness :
    fillSvgTemplate stEmpty "aFOO!bFOO!c" = some "a0b1c" := by
  obtain ⟨e1, e2, h1, h2, h3, _⟩ :=
    claimC8 stEmpty "aFOO!bFOO!c" "a" "b" "c" 0 1 (by decide) (by decide)
      (by decide) (by decide) (by decide)
  have hv1 : fromU64 0 = some "0" := by decide
  have hv2 : fromU64 1 = some "1" := by decide
  rw [hv1] at h1
  rw [hv2] at h2
  have he1 : e1 = "0" := (Option.some.inj h1).symm
  have he2 : e2 = "1" := (Option.some.inj h2).symm
  rw [he1, he2] at h3
  rw [h3]
  rfl

/-- Counterexample for claim C8: with every key from 0 to 4095 registered the
first allocated key is 4096, whose encoding panics inside the codec, so
fillTemplate does not return a filled text for this registry state. -/
theorem claimC8_counterexample :
    fillSvgTemplate stDense "aFOO!bFOO!c" = none := by
  have hsplit : (splitFoo "aFOO!bFOO!c".toList).map (fun l => String.mk l) =
      ["a", "b", "c"] := by decide
  have hk : grabNextAvailableKey stDense 0 = 4096 := by
    unfold grabNextAvailableKey
    rw [registeredKeys_stDense]
    exact nextAvailable_range 4096
  have hnone : fromU64 4096 = none := by decide
  unfold fillSvgTemplate
  rw [hsplit]
  have h3 : ∀ (stx : DbState) (key : Nat) (a b c : String),
      fillChunks stx key [a, b, c] =
        match fromU64 (grabNextAvailableKey stx key) with
        | none => none
        | some enc =>
          match fillChunks stx (grabNextAvailableKey stx key + 1) [b, c] with
          | none => none
          | some filled => some (a ++ enc ++ filled) :=
    fun stx key a b c => rfl
  rw [h3 stDense 0 "a" "b" "c", hk, hnone]

/-- Bool contains through membership, for any lawful equality. -/
theorem contains_eq_mem {α : Type} [BEq α] [LawfulBEq α] (l : List α) (a : α) :
    l.contains a = true ↔ a ∈ l := by
  simp

/-- find? over a conditional in place update: when exactly one element is
selected for update, the updated element satisfies the search predicate and
no untouched element does, the search finds the updated element. -/
theorem find?_map_cond {α : Type} (p q : α → Bool) (f : α → α) (l : List α)
    (x : α) (hx : x ∈ l) (hpx : p x = true)
    (huniq : ∀ y ∈ l, p y = true → y = x)
    (hqf : q (f x) = true)
    (hother : ∀ y ∈ l, p y = false → q y = false) :
    (l.map (fun y => if p y then f y else y)).find? q = some (f x) := by
  apply find?_unique q (f x)
  · exact List.mem_map.mpr ⟨x, hx, by rw [if_pos hpx]⟩
  · exact hqf
  · intro y hy hqy
    obtain ⟨y0, hy0, hfy⟩ := List.mem_map.mp hy
    by_cases hp0 : p y0 = true
    · have hy0x : y0 = x := huniq y0 hy0 hp0
      subst hy0x
      rw [← hfy, if_pos hp0]
    · have hp0f : p y0 = false := by revert hp0; cases p y0 <;> simp
      rw [if_neg (by simp [hp0f])] at hfy
      subst hfy
      rw [hother y0 hy0 hp0f] at hqy
      cases hqy

/-- find? over a conditional in place update: when the update destroys the
search predicate and no untouched element satisfies it, the search fails. -/
theorem find?_map_cond_none {α : Type} (p q : α → Bool) (f : α → α)
    (l : List α)
    (h1 : ∀ y ∈ l, p y = true → q (f y) = false)
    (h2 : ∀ y ∈ l, p y = false → q y = false) :
    (l.map (fun y => if p y then f y else y)).find? q = none := by
  rw [List.find?_eq_none]
  intro y hy
  obtain ⟨y0, hy0, hfy⟩ := List.mem_map.mp hy
  by_cases hp0 : p y0 = true
  · rw [if_pos hp0] at hfy
    subst hfy
    simp [h1 y0 hy0 hp0]
  · have hp0f : p y0 = false := by revert hp0; cases p y0 <;> simp
    rw [if_neg (by simp [hp0f])] at hfy
    subst hfy
    simp [h2 y0 hy0 hp0f]

/-- Claim C3.  For a stored entry with key k and a new key, modEntry with a
single KEY field decodes the new key, updates the registry row to it before
the table UPDATE runs (the swap precedes the UPDATE in the definition of
modEntry, mirroring the statement order of the source), and compensates by
swapping back when the UPDATE fails; observably, on success grabEntry on the
old key fails with the key not found error and grabEntry on the new key
returns the original row under the new key (with the MODIFIED stamp of this
modification, which modEntry always writes), while on any failure the
registry is left as it was. -/
theorem claimC3 (st : DbState) (now : Int) (k kN : Nat) (v : String)
    (e0 : Entry) (hwf : WfDb st) (hdec : toU64 v = .ok kN) (hne : kN ≠ k)
    (hgrab : grabEntry st k = .ok e0) :
    (((modEntry st now k [{ id := "KEY", value := v }]).2 = .ok ()) →
      grabEntry (modEntry st now k [{ id := "KEY", value := v }]).1 k =
        .error .keyNotFound ∧
      grabEntry (modEntry st now k [{ id := "KEY", value := v }]).1 kN =
        .ok { e0 with key := kN, modified := now }) ∧
    (((modEntry st now k [{ id := "KEY", value := v }]).2 ≠ .ok ()) →
      (modEntry st now k [{ id := "KEY", value := v }]).1.keys = st.keys) := by
  obtain ⟨hndk, hndt, hreg, hrownd, hcols⟩ := hwf
  -- unpack the stored entry: registry row, table, row
  unfold grabEntry at hgrab
  cases hck : grabCatagoryFromKey st k with
  | error e => rw [hck] at hgrab; simp at hgrab
  | ok cat =>
  have hckKeep : grabCatagoryFromKey st k = Except.ok cat := hck
  rw [hck] at hgrab
  dsimp only at hgrab
  cases hlt : lookupTable st cat with
  | none => rw [hlt] at hgrab; simp at hgrab
  | some t =>
  rw [hlt] at hgrab
  dsimp only at hgrab
  cases hrow : t.rows.find? (fun r => r.key == k) with
  | none => rw [hrow] at hgrab; simp at hgrab
  | some r0 =>
  rw [hrow] at hgrab
  dsimp only at hgrab
  have he0 : rowToEntry cat r0 = e0 := by
    cases hgrab; rfl
  -- unpack the registry lookup
  unfold grabCatagoryFromKey at hck
  cases hkf : st.keys.find? (fun p => p.1 == k) with
  | none => rw [hkf] at hck; simp at hck
  | some p =>
  rw [hkf] at hck
  have hp2 : p.2 = cat := by
    cases hck; rfl
  subst hp2
  have hpmem : p ∈ st.keys := List.mem_of_find?_eq_some hkf
  have hp1 : p.1 = k := by
    have := List.find?_some hkf
    simpa using this
  -- unpack the table lookup
  unfold lookupTable at hlt
  cases htf : st.tables.find? (fun q => q.1 == p.2) with
  | none => rw [htf] at hlt; simp at hlt
  | some tp =>
  rw [htf] at hlt
  have htp2 : tp.2 = t := by
    cases hlt; rfl
  subst htp2
  have htpmem : tp ∈ st.tables := List.mem_of_find?_eq_some htf
  have htp1 : tp.1 = p.2 := by
    have := List.find?_some htf
    simpa using this
  have hr0mem : r0 ∈ tp.2.rows := List.mem_of_find?_eq_some hrow
  have hr0key : r0.key = k := by
    have := List.find?_some hrow
    simpa using this
  -- the clause of the single KEY field
  have hbf : buildFieldAssigns st p.2 [{ id := "KEY", value := v }] =
      .ok ([("KEY", AVal.natV kN)], some kN) := by
    unfold buildFieldAssigns
    rw [hdec]
    rfl
  have hany : st.keys.any (fun q => q.1 == k) = true := by
    rw [List.any_eq_true]
    exact ⟨p, hpmem, by simp [hp1]⟩
  by_cases hkNreg : st.keys.any (fun q => q.1 == kN) = true
  · -- the new key is registered: the registry swap itself fails and nothing
    -- was written, the error surfaces with the registry untouched
    have hcond : (kN != k && st.keys.any (fun q => q.1 == kN)) = true := by
      rw [hkNreg, Bool.and_true]
      exact bne_iff_ne.mpr hne
    have hsw : swapKeyState st k kN = .error .sqlConstraint := by
      unfold swapKeyState
      rw [if_pos hany, if_pos hcond]
    have hmod : modEntry st now k [{ id := "KEY", value := v }] =
        (st, .error .sqlConstraint) := by
      unfold modEntry
      rw [hckKeep]
      dsimp only
      rw [hbf]
      dsimp only
      rw [hsw]
    constructor
    · intro hok
      rw [hmod] at hok
      simp at hok
    · intro _
      rw [hmod]
  · -- the new key is free: the swap succeeds, the UPDATE succeeds, and the
    -- entry is reachable under the new key only
    have hkNregF : st.keys.any (fun q => q.1 == kN) = false := by
      revert hkNreg; cases st.keys.any (fun q => q.1 == kN) <;> simp
    have hcondF : ¬((kN != k && st.keys.any (fun q => q.1 == kN)) = true) := by
      rw [hkNregF, Bool.and_false]
      simp
    have hsw : swapKeyState st k kN =
        .ok ⟨st.keys.map (fun q => if q.1 == k then (kN, q.2) else q),
             st.tables⟩ := by
      unfold swapKeyState
      rw [if_pos hany, if_neg hcondF]
    have hckey : ((tp.2.cols.map Prod.fst).contains "KEY") = true :=
      (contains_eq_mem _ _).mpr (hcols tp htpmem).1
    have hcmod : ((tp.2.cols.map Prod.fst).contains "MODIFIED") = true :=
      (contains_eq_mem _ _).mpr (hcols tp htpmem).2
    have happly : ∀ r : Row,
        applyAssigns [("MODIFIED", AVal.intV now), ("KEY", AVal.natV kN)] r =
          { r with key := kN, modified := now } := fun r => rfl
    have hconstr : (((tp.2.rows.filter (fun r => r.key == k)).map
        (applyAssigns [("MODIFIED", AVal.intV now), ("KEY", AVal.natV kN)])).any
        (fun u => tp.2.rows.any (fun r => r.key != k && r.key == u.key))) =
          false := by
      rw [List.any_eq_false]
      intro u hu hx
      obtain ⟨r, hr, hcond2⟩ := List.any_eq_true.mp hx
      obtain ⟨r2, hr2, hueq⟩ := List.mem_map.mp hu
      rw [happly r2] at hueq
      rw [Bool.and_eq_true] at hcond2
      have hrkey : r.key = u.key := beq_iff_eq.mp hcond2.2
      have hukey : u.key = kN := by rw [← hueq]
      have hmemk : (r.key, tp.1) ∈ st.keys := hreg tp htpmem r hr
      rw [hrkey, hukey] at hmemk
      have hbad : st.keys.any (fun q => q.1 == kN) = true :=
        List.any_eq_true.mpr ⟨(kN, tp.1), hmemk, by simp⟩
      rw [hkNregF] at hbad
      cases hbad
    have hfm : (List.filterMap (fun a => a)
        [some ("MODIFIED", AVal.intV now), some ("KEY", AVal.natV kN)] :
          List (String × AVal)) =
        [("MODIFIED", AVal.intV now), ("KEY", AVal.natV kN)] := rfl
    have hcolcheck : (([("MODIFIED", AVal.intV now), ("KEY", AVal.natV kN)] :
        List (String × AVal)).any
        (fun a => !((tp.2.cols.map Prod.fst).contains a.1))) = false := by
      rw [List.any_cons, List.any_cons, List.any_nil]
      dsimp only
      rw [hcmod, hckey]
      rfl
    have hexec : execUpdate
        ⟨st.keys.map (fun q => if q.1 == k then (kN, q.2) else q), st.tables⟩
        p.2 [some ("MODIFIED", AVal.intV now), some ("KEY", AVal.natV kN)] k =
        .ok ⟨st.keys.map (fun q => if q.1 == k then (kN, q.2) else q),
             st.tables.map (fun q =>
               if q.1 == p.2 then
                 (q.1, { q.2 with rows := q.2.rows.map (fun r =>
                   if r.key == k then
                     applyAssigns
                       [("MODIFIED", AVal.intV now), ("KEY", AVal.natV kN)] r
                   else r) })
               else q)⟩ := by
      unfold execUpdate
      rw [if_neg (by simp)]
      dsimp only
      rw [hfm, htf]
      dsimp only
      rw [if_neg (by rw [hcolcheck]; simp)]
      rw [if_neg (by rw [hconstr]; simp)]
    have hpn : (some ("MODIFIED", AVal.intV now) ::
        List.map some [("KEY", AVal.natV kN)] ++
        (if ([("KEY", AVal.natV kN)] : List (String × AVal)).isEmpty = true
         then [none] else []) : List (Option (String × AVal))) =
        [some ("MODIFIED", AVal.intV now), some ("KEY", AVal.natV kN)] := rfl
    have hmod : modEntry st now k [{ id := "KEY", value := v }] =
        (⟨st.keys.map (fun q => if q.1 == k then (kN, q.2) else q),
          st.tables.map (fun q =>
            if q.1 == p.2 then
              (q.1, { q.2 with rows := q.2.rows.map (fun r =>
                if r.key == k then
                  applyAssigns
                    [("MODIFIED", AVal.intV now), ("KEY", AVal.natV kN)] r
                else r) })
            else q)⟩, .ok ()) := by
      unfold modEntry
      rw [hckKeep]
      dsimp only
      rw [hbf]
      dsimp only
      rw [hsw]
      dsimp only
      rw [hpn, hexec]
    have hfindnone : (st.keys.map
        (fun q => if q.1 == k then (kN, q.2) else q)).find?
        (fun q => q.1 == k) = none := by
      exact find?_map_cond_none (fun q => q.1 == k) (fun q => q.1 == k)
        (fun q => (kN, q.2)) st.keys
        (fun y hy hpy => beq_eq_false_iff_ne.mpr hne)
        (fun y hy hpyf => hpyf)
    have hinjK := List.inj_on_of_nodup_map hndk
    have hotherK : ∀ y ∈ st.keys, (y.1 == k) = false → (y.1 == kN) = false := by
      intro y hy hyf
      by_cases hyN : y.1 = kN
      · exfalso
        have hbad : st.keys.any (fun q => q.1 == kN) = true :=
          List.any_eq_true.mpr ⟨y, hy, by simp [hyN]⟩
        rw [hkNregF] at hbad
        cases hbad
      · exact beq_eq_false_iff_ne.mpr hyN
    have huniqK : ∀ y ∈ st.keys, (y.1 == k) = true → y = p := by
      intro y hy hyk
      exact hinjK hy hpmem (by rw [beq_iff_eq.mp hyk, hp1])
    have hfindN : (st.keys.map
        (fun q => if q.1 == k then (kN, q.2) else q)).find?
        (fun q => q.1 == kN) = some (kN, p.2) := by
      exact find?_map_cond (fun q => q.1 == k) (fun q => q.1 == kN)
        (fun q => (kN, q.2)) st.keys p hpmem (by simp [hp1]) huniqK
        (by simp) hotherK
    have hpres : ∀ q : String × Table,
        (((fun q2 => if q2.1 == p.2 then
            (q2.1, { q2.2 with rows := q2.2.rows.map (fun r =>
              if r.key == k then
                applyAssigns
                  [("MODIFIED", AVal.intV now), ("KEY", AVal.natV kN)] r
              else r) })
          else q2) q).1 == p.2) = (q.1 == p.2) := by
      intro q
      dsimp only
      by_cases hq : (q.1 == p.2) = true
      · rw [if_pos hq]
      · rw [if_neg hq]
    have htab2 : (st.tables.map (fun q2 =>
        if q2.1 == p.2 then
          (q2.1, { q2.2 with rows := q2.2.rows.map (fun r =>
            if r.key == k then
              applyAssigns
                [("MODIFIED", AVal.intV now), ("KEY", AVal.natV kN)] r
            else r) })
        else q2)).find? (fun q => q.1 == p.2) =
        some (tp.1, { tp.2 with rows := tp.2.rows.map (fun r =>
          if r.key == k then
            applyAssigns [("MODIFIED", AVal.intV now), ("KEY", AVal.natV kN)] r
          else r) }) := by
      rw [find?_map_pres _ _ hpres st.tables, htf, Option.map_some']
      dsimp only
      rw [if_pos (by simp [htp1] : (tp.1 == p.2) = true)]
    have hinjR := List.inj_on_of_nodup_map (hrownd tp htpmem)
    have hotherR : ∀ r ∈ tp.2.rows,
        (r.key == k) = false → (r.key == kN) = false := by
      intro r hr hrf
      by_cases hrN : r.key = kN
      · exfalso
        have hmemk : (r.key, tp.1) ∈ st.keys := hreg tp htpmem r hr
        rw [hrN] at hmemk
        have hbad : st.keys.any (fun q => q.1 == kN) = true :=
          List.any_eq_true.mpr ⟨(kN, tp.1), hmemk, by simp⟩
        rw [hkNregF] at hbad
        cases hbad
      · exact beq_eq_false_iff_ne.mpr hrN
    have huniqR : ∀ r ∈ tp.2.rows, (r.key == k) = true → r = r0 := by
      intro r hr hrk
      exact hinjR hr hr0mem (by rw [beq_iff_eq.mp hrk, hr0key])
    have hrowsN : (tp.2.rows.map (fun r =>
        if r.key == k then
          applyAssigns [("MODIFIED", AVal.intV now), ("KEY", AVal.natV kN)] r
        else r)).find? (fun r => r.key == kN) =
        some (applyAssigns
          [("MODIFIED", AVal.intV now), ("KEY", AVal.natV kN)] r0) := by
      exact find?_map_cond (fun r => r.key == k) (fun r => r.key == kN)
        (applyAssigns [("MODIFIED", AVal.intV now), ("KEY", AVal.natV kN)])
        tp.2.rows r0 hr0mem (by simp [hr0key]) huniqR
        (by rw [happly r0]; simp) hotherR
    have hg1 : grabEntry
        ⟨st.keys.map (fun q => if q.1 == k then (kN, q.2) else q),
         st.tables.map (fun q =>
           if q.1 == p.2 then
             (q.1, { q.2 with rows := q.2.rows.map (fun r =>
               if r.key == k then
                 applyAssigns
                   [("MODIFIED", AVal.intV now), ("KEY", AVal.natV kN)] r
               else r) })
           else q)⟩ k = .error .keyNotFound := by
      unfold grabEntry grabCatagoryFromKey
      dsimp only
      rw [hfindnone]
    have hg2 : grabEntry
        ⟨st.keys.map (fun q => if q.1 == k then (kN, q.2) else q),
         st.tables.map (fun q =>
           if q.1 == p.2 then
             (q.1, { q.2 with rows := q.2.rows.map (fun r =>
               if r.key == k then
                 applyAssigns
                   [("MODIFIED", AVal.intV now), ("KEY", AVal.natV kN)] r
               else r) })
           else q)⟩ kN = .ok { e0 with key := kN, modified := now } := by
      unfold grabEntry grabCatagoryFromKey lookupTable
      dsimp only
      rw [hfindN]
      dsimp only
      rw [htab2, Option.map_some']
      dsimp only
      rw [hrowsN]
      dsimp only
      rw [happly r0, ← he0]
      rfl
    constructor
    · intro _
      rw [hmod]
      exact ⟨hg1, hg2⟩
    · intro hne2
      rw [hmod] at hne2
      exact absurd rfl hne2

/-- Witness for claim C3: swapping the key of the stored row from 0 to 1 in
the concrete one row state. -/
theorem claimC3_witness :
    grabEntry (modEntry stW 7 0 [{ id := "KEY", value := "1" }]).1 0 =
      .error .keyNotFound ∧
    grabEntry (modEntry stW 7 0 [{ id := "KEY", value := "1" }]).1 1 =
      .ok { entryW0 with key := 1, modified := 7 } :=
  (claimC3 stW 7 0 1 "1" entryW0 (by decide) (by decide) (by decide)
    (by decide)).1 (by decide)
